import Mathlib

set_option maxRecDepth 8000

/-!
Shallow embedding of the cargo-verify tool of rust-verification-tools:
the backend output classifiers (klee.rs, seahorn.rs), the statistics
extraction, the run-scheduler aggregation and bitcode candidate selection
(main.rs), the test-list resolution, the symbol lookup (mangle_functions),
the replay driver and the latin-1 decoder (utils.rs).

Lines of captured process output are modelled as Lean String values that
contain no newline (they come from str::lines).  Rust byte-based str
operations agree with the char-based model on valid UTF-8 at char
boundaries, which is the only way they are used.
-/

/-- Verification status of one entry point (main.rs, enum Status). -/
inductive Status where
  | Unknown
  | Verified
  | Error
  | Timeout
  | Overflow
  | Reachable
deriving DecidableEq, Repr

/-- Whitespace class of the Rust regex crate and of char::is_whitespace
(Unicode White_Space), used for the \s pattern and for str::trim. -/
def isWsRe (c : Char) : Bool :=
  c == ' ' || c == '\t' || c == '\n' || c == '\r' ||
  c.toNat == 0xb || c.toNat == 0xc ||
  c.toNat == 0x85 || c.toNat == 0xa0 || c.toNat == 0x1680 ||
  (decide (0x2000 ≤ c.toNat) && decide (c.toNat ≤ 0x200a)) ||
  c.toNat == 0x2028 || c.toNat == 0x2029 || c.toNat == 0x202f ||
  c.toNat == 0x205f || c.toNat == 0x3000

/-- Rust str::starts_with on char lists: `startsL s p` holds when `p` is an
initial segment of `s`. -/
def startsL : List Char → List Char → Bool
  | _, [] => true
  | [], _ :: _ => false
  | c :: s, d :: p => c == d && startsL s p

/-- Rust str::contains (substring containment) on char lists: `subL p s`
holds when `p` occurs contiguously inside `s`. -/
def subL (p : List Char) : List Char → Bool
  | [] => startsL [] p
  | c :: s => startsL (c :: s) p || subL p s

/-- Rust `s.starts_with(p)`. -/
def strStarts (s p : String) : Bool := startsL s.data p.data

/-- Rust `s.contains(p)`. -/
def strContains (s p : String) : Bool := subL p.data s.data

/-- Rust str::strip_prefix on char lists. -/
def dropPreL : List Char → List Char → Option (List Char)
  | s, [] => some s
  | [], _ :: _ => none
  | c :: s, d :: p => if c == d then dropPreL s p else none

/-- Rust str::strip_suffix on char lists. -/
def dropSufL (s p : List Char) : Option (List Char) :=
  (dropPreL s.reverse p.reverse).map List.reverse

/-- One step of the expectation scan of klee.rs run (lines 209-221) and
seahorn.rs run (lines 135-147): the last marker line wins, other lines
leave the accumulator unchanged. -/
def expectStep (acc : Option String) (l : String) : Option String :=
  if l = "VERIFIER_EXPECT: should_panic" then some ""
  else
    match (dropPreL l.data ("VERIFIER_EXPECT: should_panic(expected = \"").data).bind
        (fun r => dropSufL r ("\")").data) with
    | some e => some (String.mk e)
    | none => acc

/-- Scan for the expectation message over the captured stderr lines. -/
def scanExpect (lines : List String) : Option String := lines.foldl expectStep none

/-- Match of the PANOCKED regex " panicked at \x27([^\x27]*)\x27,\s+(.*)"
anchored at the head of the list; returns (message, source location).
The quote character is Char.ofNat 39. -/
def panickedAt (s : List Char) : Option (List Char × List Char) :=
  (dropPreL s (" panicked at \x27").data).bind fun r =>
    let msg := r.takeWhile (fun c => !(c == Char.ofNat 39))
    match r.dropWhile (fun c => !(c == Char.ofNat 39)) with
    | q :: c2 :: r2 =>
        if q == Char.ofNat 39 && c2 == ',' then
          match r2 with
          | c :: _ =>
              if isWsRe c then some (msg, r2.dropWhile isWsRe) else none
          | [] => none
        else none
    | _ => none

/-- Leftmost match of the PANOCKED regex in a line (Regex::captures). -/
def findPanicked : List Char → Option (List Char × List Char)
  | [] => none
  | c :: s =>
      match panickedAt (c :: s) with
      | some r => some r
      | none => findPanicked s

/-- klee.rs / main.rs is_expected_panic (lines 341-362 of klee.rs); the
`name` argument of the source is used only for logging and is omitted. -/
def is_expected_panic (line : String) (expect : Option String) : Bool :=
  match expect with
  | none => false
  | some e =>
      match findPanicked line.data with
      | some (msg, _) => subL e.data msg
      | none => false

/-- Per-line status patterns of klee.rs run (the find_map closure, lines
224-263 of klee.rs, identical to main.rs klee_run lines 809-844). -/
def kleeLine (expect : Option String) (l : String) : Option Status :=
  if strStarts l "KLEE: HaltTimer invoked" then some Status.Timeout
  else if strStarts l "KLEE: halting execution, dumping remaining states" then some Status.Timeout
  else if strStarts l "KLEE: ERROR: Could not link" then some Status.Unknown
  else if strStarts l "KLEE: ERROR: Unable to load symbol" then some Status.Unknown
  else if strStarts l "KLEE: ERROR:" && strContains l "unreachable" then some Status.Reachable
  else if strStarts l "KLEE: ERROR:" && strContains l "overflow" then some Status.Overflow
  else if strStarts l "KLEE: ERROR:" then some Status.Error
  else if strStarts l "VERIFIER_EXPECT:" then none
  else if is_expected_panic l expect then some Status.Verified
  else if strContains l "assertion failed" then some Status.Error
  else if strContains l "verification failed" then some Status.Error
  else if strContains l "with overflow" then some Status.Overflow
  else if strContains l "note: run with `RUST_BACKTRACE=1`" then some Status.Error
  else if strContains l "KLEE: done:" then
    if expect = none then some Status.Verified else some Status.Error
  else none

/-- klee.rs run: classification of the captured stderr lines (steps 1 and 2
of the classifier; the first matching line decides, otherwise Unknown). -/
def kleeStatus (stderrLines : List String) : Status :=
  match stderrLines.findSome? (kleeLine (scanExpect stderrLines)) with
  | some st => st
  | none => Status.Unknown

/-- Per-line status patterns of seahorn.rs run (lines 150-169). -/
def seahornLine (expect : Option String) (l : String) : Option Status :=
  if strStarts l "VERIFIER_EXPECT:" then none
  else if is_expected_panic l expect then some Status.Verified
  else if l = "sat" then some Status.Error
  else if l = "unsat" then
    if expect = none then some Status.Verified else some Status.Error
  else none

/-- seahorn.rs run: expectation scan over stderr, status scan over
stderr.lines().chain(stdout.lines()). -/
def seahornStatus (stderrLines stdoutLines : List String) : Status :=
  match (stderrLines ++ stdoutLines).findSome? (seahornLine (scanExpect stderrLines)) with
  | some st => st
  | none => Status.Unknown

/-- Rightmost split of a char list at "= <digit>": returns the part before
"= " and the digit run after it, implementing the greedy backtracking of
"(.*)= (\d+)" (group 2 is the maximal digit run, no end anchor). -/
def lastEq : List Char → Option (List Char × List Char)
  | [] => none
  | c :: t =>
      match lastEq t with
      | some (g1, g2) => some (c :: g1, g2)
      | none =>
          match c, t with
          | '=', ' ' :: r =>
              let ds := r.takeWhile Char.isDigit
              if ds.isEmpty then none else some ([], ds)
          | _, _ => none

/-- Captures of the KLEE_DONE regex "^KLEE: done:\s+(.*)= (\d+)" (klee.rs
lines 272-274): the literal head, at least one whitespace (greedy), then
the rightmost "= <digits>". -/
def kleeDoneCaps (l : String) : Option (String × String) :=
  (dropPreL l.data ("KLEE: done:").data).bind fun r =>
    match r with
    | c :: _ =>
        if isWsRe c then
          (lastEq (r.dropWhile isWsRe)).map (fun p => (String.mk p.1, String.mk p.2))
        else none
    | [] => none

/-- Accumulate the value of an ASCII digit run. -/
def parseDigitsAux (acc : Nat) : List Char → Option Nat
  | [] => some acc
  | c :: t => if c.isDigit then parseDigitsAux (acc * 10 + (c.toNat - 48)) t else none

/-- Rust str::parse::<isize>() on a 64-bit host: an optional sign followed
by one or more ASCII digits, inside the isize range; everything else is
Err. -/
def parseIsize (s : List Char) : Option Int :=
  match s with
  | [] => none
  | '+' :: ds =>
      if ds.isEmpty then none
      else (parseDigitsAux 0 ds).bind fun n =>
        if n < 2 ^ 63 then some (Int.ofNat n) else none
  | '-' :: ds =>
      if ds.isEmpty then none
      else (parseDigitsAux 0 ds).bind fun n =>
        if n ≤ 2 ^ 63 then some (-(Int.ofNat n)) else none
  | ds =>
      (parseDigitsAux 0 ds).bind fun n =>
        if n < 2 ^ 63 then some (Int.ofNat n) else none

/-- Rust str::trim (Unicode whitespace stripped from both ends). -/
def trimL (s : List Char) : List Char :=
  ((s.dropWhile isWsRe).reverse.dropWhile isWsRe).reverse

/-- HashMap modelled as an association list where a later insert overwrites
an earlier entry with the same key. -/
def insertEntry (m : List (String × Int)) (k : String) (v : Int) : List (String × Int) :=
  (k, v) :: m.filter (fun p => !(p.1 == k))

/-- klee.rs run, statistics extraction (lines 276-287): for every line
matched by KLEE_DONE the key is capture group 1 trimmed, and the value is
caps.get(1)...parse::<isize>().unwrap() - also capture group 1.  The
result `none` models the panic of that unwrap. -/
def kleeStats (lines : List String) : Option (List (String × Int)) :=
  lines.foldl
    (fun acc l =>
      acc.bind fun m =>
        match kleeDoneCaps l with
        | none => some m
        | some (g1, _) =>
            match parseIsize g1.data with
            | some v => some (insertEntry m (String.mk (trimL g1.data)) v)
            | none => none)
    (some [])

/-- Loop body of main.rs verify (lines 1077-1088): count passes and fails
and remember the most recent failing status. -/
def verifyStep (acc : Nat × Nat × Option Status) (r : String × Status) :
    Nat × Nat × Option Status :=
  if r.2 = Status.Verified then (acc.1 + 1, acc.2.1, acc.2.2)
  else (acc.1, acc.2.1 + 1, some r.2)

/-- main.rs verify: the (passes, fails, failure) aggregate over the
per-entry results, in entry order. -/
def verifyLoop (results : List (String × Status)) : Nat × Nat × Option Status :=
  results.foldl verifyStep (0, 0, none)

/-- main.rs verify (lines 1090-1100): the representative overall status. -/
def verifyOverall (results : List (String × Status)) : Status :=
  match (verifyLoop results).2.2 with
  | some failure => failure
  | none => Status.Verified

/-- The last non-Verified status of a result list, seeded with `acc`
(closed form of the failure component of verifyLoop). -/
def lastFailAux (acc : Option Status) : List (String × Status) → Option Status
  | [] => acc
  | r :: rs => if r.2 = Status.Verified then lastFailAux acc rs else lastFailAux (some r.2) rs

/-- Rust str::split(" ") with the one-space separator (consecutive spaces
yield empty pieces, the empty string yields one empty piece). -/
def splitSpAux (cur : List Char) : List Char → List (List Char)
  | [] => [cur.reverse]
  | c :: t => if c == ' ' then cur.reverse :: splitSpAux [] t else splitSpAux (c :: cur) t

/-- Rust `l.split(" ").collect::<Vec<_>>()` on a line. -/
def splitSp (l : String) : List (List Char) := splitSpAux [] l.data

/-- main.rs count_symbols (lines 422-447): parse llvm-nm --defined-only
output and count defined "T" symbols that are among `fs`. -/
def count_symbols (nmLines : List String) (fs : List String) : Nat :=
  (nmLines.filter (fun l =>
    match splitSp l with
    | [_, t, sym] => t == ("T").data && fs.any (fun f => f.data == sym)
    | _ => false)).length

/-- main.rs verify (lines 968-970): the bitcode files whose symbol table
contains a main or _main symbol; each file is given with its llvm-nm
output lines. -/
def mainCandidates (files : List (String × List String)) : List String :=
  (files.filter (fun f => decide (0 < count_symbols f.2 ["main", "_main"]))).map (fun f => f.1)

/-- Outcome of the bitcode disambiguation in main.rs verify. -/
inductive BcOutcome where
  | picked (bc : String)
  | failed (msg : String)
deriving DecidableEq, Repr

/-- main.rs verify (lines 972-988): match on the candidate slice; `failed`
carries the error message and the function then returns Status::Unknown.
`testsRequested` is opt.tests || !opt.test.is_empty(). -/
def selectBc (files : List (String × List String)) (testsRequested : Bool)
    (package : String) : BcOutcome :=
  match mainCandidates files with
  | [bc] => BcOutcome.picked bc
  | [] =>
      if testsRequested then BcOutcome.failed "  FAILED: Use --tests with library crates"
      else BcOutcome.failed ("  FAILED: Test " ++ package ++ " compilation error")
  | _ => BcOutcome.failed ("  FAILED: Test " ++ package ++ " compilation error")

/-- How a modelled function returns: normally, or by terminating the whole
process through exit(code). -/
inductive ReplayOutcome where
  | ret
  | exited (code : Nat)
deriving DecidableEq, Repr

/-- klee.rs replay_klee (lines 301-338) as a function of whether the
re-invocation of the program under test exited successfully: on failure it
logs "FAILED: Couldn\x27t run llvm-nm" and calls exit(1). -/
def replay_klee (subprocessOk : Bool) : ReplayOutcome :=
  if subprocessOk then ReplayOutcome.ret else ReplayOutcome.exited 1

/-- klee.rs verify (lines 91-94): the replay loop over the ktest files,
given the exit success of each replay subprocess; returns how many replays
actually ran and the exit code if the process aborted. -/
def replayLoop : List Bool → Nat × Option Nat
  | [] => (0, none)
  | ok :: rest =>
      match replay_klee ok with
      | ReplayOutcome.ret => ((replayLoop rest).1 + 1, (replayLoop rest).2)
      | ReplayOutcome.exited c => (1, some c)

/-- Match of "\s+test\s*$": at least one whitespace, the literal "test",
then only whitespace up to the end of the line. -/
def tailTest (r : List Char) : Bool :=
  match r with
  | [] => false
  | c :: _ =>
      isWsRe c &&
        (startsL (r.dropWhile isWsRe) ("test").data &&
         ((r.dropWhile isWsRe).drop 4).all isWsRe)

/-- Rightmost colon split for the greedy "(\S+):": `colonSplit run rest`
finds the rightmost ":" inside `run` whose remainder (continued by `rest`)
matches "\s+test\s*$", returning the part of `run` before that colon. -/
def colonSplit : List Char → List Char → Option (List Char)
  | [], _ => none
  | c :: t, rest =>
      match colonSplit t rest with
      | some g => some (c :: g)
      | none => if c == ':' && tailTest (t ++ rest) then some [] else none

/-- Match of the TEST regex "(\S+):\s+test\s*$" starting at this position:
the \S+ group and its colon lie inside the maximal non-whitespace run. -/
def matchTestAt (s : List Char) : Option (List Char) :=
  match colonSplit (s.takeWhile (fun c => !(isWsRe c))) (s.dropWhile (fun c => !(isWsRe c))) with
  | some g => if g.isEmpty then none else some g
  | none => none

/-- Leftmost match of the TEST regex in a line. -/
def findTestName : List Char → Option (List Char)
  | [] => none
  | c :: s =>
      match matchTestAt (c :: s) with
      | some g => some g
      | none => findTestName s

/-- Capture group 1 of the TEST regex for one output line. -/
def captureTest (l : String) : Option String := (findTestName l.data).map String.mk

/-- main.rs list_tests (lines 537-542): the names captured from the
cargo test -- --list output lines. -/
def list_tests (stdoutLines : List String) : List String :=
  stdoutLines.filterMap captureTest

/-- Outcome of the test resolution in main.rs verify. -/
inductive TestsOutcome where
  | ok (tests : List String)
  | failed (msg : String)
deriving DecidableEq, Repr

/-- main.rs verify (lines 1016-1030): list the tests, narrow by the --test
substring filters when any are given, and fail when none remain (the
source then returns Status::Unknown). -/
def resolveTests (stdoutLines : List String) (filters : List String) : TestsOutcome :=
  let tests := list_tests stdoutLines
  let tests := if filters.isEmpty then tests
               else tests.filter (fun t => filters.any (fun f => strContains t f))
  if tests.isEmpty then TestsOutcome.failed "No tests found" else TestsOutcome.ok tests

/-- Narrowing of the candidate names by the command-line filters, stated in
the words of the spec (kept separate to compare with resolveTests). -/
def narrowTests (names : List String) (filters : List String) : List String :=
  if filters.isEmpty then names
  else names.filter (fun t => filters.any (fun f => strContains t f))

/-- ASCII lowercase (the compared llvm-nm fields are single ASCII
letters). -/
def lowerAscii (s : String) : String :=
  String.mk (s.data.map (fun c =>
    if 65 ≤ c.toNat ∧ c.toNat ≤ 90 then Char.ofNat (c.toNat + 32) else c))

/-- One llvm-nm line of main.rs mangle_functions (lines 578-602); `dem` is
the external rustc_demangle::demangle composed with the alternate
formatter, and `nameSet` the set of requested display names. -/
def mangleLine (dem : String → String) (nameSet : List String) (l : String) :
    Option (String × String) :=
  match splitSp l with
  | [_, t, sym] =>
      if (lowerAscii (String.mk t)).data == ("t").data &&
          (startsL sym ("__ZN").data || startsL sym ("_ZN").data) then
        let suf := if startsL sym ("__ZN").data then String.mk (sym.drop 4)
                   else String.mk (sym.drop 3)
        let dname := dem suf
        if nameSet.contains dname then some (dname, "_ZN" ++ suf) else none
      else none
  | _ => none

/-- How mangle_functions can end: with the pairs, with exit(1) after the
missing-entries error, or with a panic. -/
inductive MangleOutcome where
  | ok (rs : List (String × String))
  | exited (code : Nat)
  | panicked
deriving DecidableEq, Repr

/-- main.rs mangle_functions (lines 578-615).  The HashSet of requested
names is modelled by eraseDups; "names.len() - rs.len()" is usize
subtraction, which panics (debug overflow check) when rs is longer. -/
def mangle_functions (dem : String → String) (nmLines : List String)
    (names : List String) : MangleOutcome :=
  let nameSet := names.eraseDups
  let rs := nmLines.filterMap (mangleLine dem nameSet)
  if rs.length ≤ nameSet.length then
    if 0 < nameSet.length - rs.length then MangleOutcome.exited 1 else MangleOutcome.ok rs
  else MangleOutcome.panicked

/-- utils.rs / main.rs from_latin1: each byte becomes the char with the same
code point.  Bytes are modelled as Nat values below 256. -/
def from_latin1 (bytes : List Nat) : String :=
  String.mk (bytes.map (fun b => Char.ofNat b))

/-! Helper lemmas. -/

theorem findSome?_append_none {α β : Type} (f : α → Option β) (pre rest : List α)
    (h : ∀ x ∈ pre, f x = none) :
    (pre ++ rest).findSome? f = rest.findSome? f := by
  induction pre with
  | nil => rfl
  | cons a t ih =>
      have ha : f a = none := h a (by simp)
      simp only [List.cons_append, List.findSome?_cons, ha]
      exact ih (fun x hx => h x (by simp [hx]))

theorem findSome?_ne_some {α β : Type} (f : α → Option β) (l : List α) (v : β)
    (h : ∀ x ∈ l, f x ≠ some v) : l.findSome? f ≠ some v := by
  induction l with
  | nil => simp [List.findSome?]
  | cons a t ih =>
      simp only [List.findSome?_cons]
      cases hfa : f a with
      | none => exact ih (fun x hx => h x (by simp [hx]))
      | some b =>
          intro hb
          exact h a (by simp) (by rw [hfa, Option.some_inj.mpr (Option.some_inj.mp hb)])

theorem startsL_iff (s p : List Char) : startsL s p = true ↔ ∃ t, s = p ++ t := by
  induction p generalizing s with
  | nil => simp [startsL]
  | cons d p ih =>
      cases s with
      | nil => simp [startsL]
      | cons c s =>
          simp only [startsL, Bool.and_eq_true, beq_iff_eq, List.cons_append, ih]
          constructor
          · rintro ⟨rfl, t, rfl⟩; exact ⟨t, rfl⟩
          · rintro ⟨t, h⟩
            injection h with h1 h2
            exact ⟨h1, t, h2⟩

theorem startsL_prepend (p t : List Char) : startsL (p ++ t) p = true :=
  (startsL_iff _ _).mpr ⟨t, rfl⟩

theorem strStarts_mono (l p q : String) (hpq : startsL q.data p.data = true)
    (h : strStarts l p = false) : strStarts l q = false := by
  unfold strStarts at *
  cases hq : startsL l.data q.data with
  | false => rfl
  | true =>
      exfalso
      obtain ⟨t, ht⟩ := (startsL_iff _ _).mp hq
      obtain ⟨u, hu⟩ := (startsL_iff _ _).mp hpq
      rw [ht, hu, List.append_assoc] at h
      rw [Bool.eq_false_iff] at h
      exact h (startsL_prepend _ _)

theorem all_takeWhile {α : Type} (p : α → Bool) (l : List α) :
    (l.takeWhile p).all p = true := by
  induction l with
  | nil => rfl
  | cons a t ih =>
      cases ha : p a with
      | false => simp [List.takeWhile, ha]
      | true => simp [List.takeWhile, ha, ih]

theorem takeWhile_append_all {α : Type} (p : α → Bool) (b x : List α)
    (h : b.all p = true) : (b ++ x).takeWhile p = b ++ x.takeWhile p := by
  induction b with
  | nil => rfl
  | cons a t ih =>
      simp only [List.all_cons, Bool.and_eq_true] at h
      simp [List.takeWhile, h.1, ih h.2]

theorem dropWhile_append_all {α : Type} (p : α → Bool) (b x : List α)
    (h : b.all p = true) : (b ++ x).dropWhile p = x.dropWhile p := by
  induction b with
  | nil => rfl
  | cons a t ih =>
      simp only [List.all_cons, Bool.and_eq_true] at h
      simp [List.dropWhile, h.1, ih h.2]

theorem char_toNat_ofNat (b : Nat) (h : b < 0xd800) : (Char.ofNat b).toNat = b := by
  unfold Char.ofNat
  rw [dif_pos (Or.inl h)]
  rfl

/-! Claim C4: statistics extraction. -/

/-- C4: the claim says a trailer line "KLEE: done: completed paths = 42"
yields the map entry from "completed paths" to 42 and malformed counts are
dropped.  On that very input the source matches the KLEE_DONE regex with
group 1 = "completed paths " and group 2 = "42", but then feeds group 1 -
not group 2 - to parse::<isize>().unwrap(), which panics (modelled as the
kleeStats result none). -/
theorem c4_stats_parse_panics :
    kleeDoneCaps "KLEE: done: completed paths = 42" = some ("completed paths ", "42") ∧
    parseIsize ("completed paths ").data = none ∧
    parseIsize ("42").data = some 42 ∧
    kleeStats ["KLEE: done: completed paths = 42"] = none := by
  refine ⟨by decide, by decide, by decide, by decide⟩

/-! Claim C7: replay failure handling. -/

/-- C7: the claim says a failed replay is reported but does not abort the
run.  The source calls exit(1) in replay_klee when the replay subprocess
exits unsuccessfully, so a failing first replay terminates the whole
process: of two scheduled replays only one runs and the process exits with
code 1. -/
theorem c7_replay_failure_exits :
    replay_klee false = ReplayOutcome.exited 1 ∧
    replayLoop [false, true] = (1, some 1) :=
  ⟨rfl, rfl⟩

/-! Claim C9: mangle_functions underflow. -/

/-- C9: mangle_functions computes names.len() - rs.len() with usize
subtraction; whenever the matched pairs outnumber the distinct requested
names this underflows and the function panics, and it returns the pairs
normally only when they do not outnumber the distinct requested names. -/
theorem c9_mangle_underflow (dem : String → String) (nmLines names : List String) :
    (names.eraseDups.length < (nmLines.filterMap (mangleLine dem names.eraseDups)).length →
       mangle_functions dem nmLines names = MangleOutcome.panicked) ∧
    (∀ rs, mangle_functions dem nmLines names = MangleOutcome.ok rs →
       rs = nmLines.filterMap (mangleLine dem names.eraseDups) ∧
       rs.length ≤ names.eraseDups.length) := by
  constructor
  · intro h
    unfold mangle_functions
    rw [if_neg (by omega)]
  · intro rs h
    unfold mangle_functions at h
    by_cases hle : (nmLines.filterMap (mangleLine dem names.eraseDups)).length ≤
        names.eraseDups.length
    · rw [if_pos hle] at h
      by_cases hm : 0 < names.eraseDups.length -
          (nmLines.filterMap (mangleLine dem names.eraseDups)).length
      · rw [if_pos hm] at h; cases h
      · rw [if_neg hm] at h
        cases h
        exact ⟨rfl, hle⟩
    · rw [if_neg hle] at h; cases h

/-- C9 witness: two defined symbols, _ZNfoo and its OSX double-underscore
variant __ZNfoo, demangle to the same requested name "foo", so the matched
pairs outnumber the one distinct requested name and the function panics. -/
theorem c9_mangle_underflow_witness :
    mangle_functions (fun s => s) ["x t _ZNfoo", "y t __ZNfoo"] ["foo"] =
      MangleOutcome.panicked :=
  (c9_mangle_underflow (fun s => s) ["x t _ZNfoo", "y t __ZNfoo"] ["foo"]).1 (by decide)

/-! Claim C10: from_latin1. -/

/-- C10: from_latin1 is total and produces exactly one char per input byte,
the i-th char being the Unicode code point equal to the i-th byte (so
classification of backend output never fails on non-UTF-8 bytes). -/
theorem c10_from_latin1_chars (bytes : List Nat) (hb : ∀ b ∈ bytes, b < 256) :
    (from_latin1 bytes).data.length = bytes.length ∧
    (from_latin1 bytes).data.map Char.toNat = bytes := by
  constructor
  · simp [from_latin1]
  · unfold from_latin1
    show (bytes.map (fun b => Char.ofNat b)).map Char.toNat = bytes
    rw [List.map_map]
    have : ∀ b ∈ bytes, (Char.toNat ∘ fun b => Char.ofNat b) b = b := by
      intro b hbb
      exact char_toNat_ofNat b (lt_trans (hb b hbb) (by norm_num))
    induction bytes with
    | nil => rfl
    | cons a t ih =>
        simp only [List.map_cons, this a (by simp)]
        rw [ih (fun b hbb => hb b (by simp [hbb])) (fun b hbb => this b (by simp [hbb]))]

/-- C10 witness at the bytes [255, 0, 72]; byte 255 is not valid UTF-8 as a
standalone unit but decodes to the char U+00FF. -/
theorem c10_from_latin1_witness :
    (from_latin1 [255, 0, 72]).data.length = 3 ∧
    (from_latin1 [255, 0, 72]).data.map Char.toNat = [255, 0, 72] :=
  c10_from_latin1_chars [255, 0, 72] (by decide)

theorem foldl_verifyStep_closed (rs : List (String × Status)) (p f : Nat) (fl : Option Status) :
    rs.foldl verifyStep (p, f, fl) =
      (p + (rs.filter (fun r => decide (r.2 = Status.Verified))).length,
       f + (rs.filter (fun r => decide (r.2 ≠ Status.Verified))).length,
       lastFailAux fl rs) := by
  induction rs generalizing p f fl with
  | nil => simp [lastFailAux]
  | cons r t ih =>
      by_cases hv : r.2 = Status.Verified
      · have e1 : (r :: t).filter (fun r => decide (r.2 = Status.Verified)) =
            r :: t.filter (fun r => decide (r.2 = Status.Verified)) := by
          simp [List.filter_cons, hv]
        have e2 : (r :: t).filter (fun r => decide (r.2 ≠ Status.Verified)) =
            t.filter (fun r => decide (r.2 ≠ Status.Verified)) := by
          simp [List.filter_cons, hv]
        have e3 : lastFailAux fl (r :: t) = lastFailAux fl t := by
          simp [lastFailAux, hv]
        simp only [List.foldl_cons, verifyStep, if_pos hv]
        rw [ih, e1, e2, e3]
        simp only [List.length_cons]
        have harith : p + 1 + (t.filter (fun r => decide (r.2 = Status.Verified))).length =
            p + ((t.filter (fun r => decide (r.2 = Status.Verified))).length + 1) := by
          omega
        rw [harith]
      · have e1 : (r :: t).filter (fun r => decide (r.2 = Status.Verified)) =
            t.filter (fun r => decide (r.2 = Status.Verified)) := by
          simp [List.filter_cons, hv]
        have e2 : (r :: t).filter (fun r => decide (r.2 ≠ Status.Verified)) =
            r :: t.filter (fun r => decide (r.2 ≠ Status.Verified)) := by
          simp [List.filter_cons, hv]
        have e3 : lastFailAux fl (r :: t) = lastFailAux (some r.2) t := by
          simp [lastFailAux, hv]
        simp only [List.foldl_cons, verifyStep, if_neg hv]
        rw [ih, e1, e2, e3]
        simp only [List.length_cons]
        have harith : f + 1 + (t.filter (fun r => decide (r.2 ≠ Status.Verified))).length =
            f + ((t.filter (fun r => decide (r.2 ≠ Status.Verified))).length + 1) := by
          omega
        rw [harith]

theorem lastFailAux_all_verified (rs : List (String × Status)) (fl : Option Status)
    (h : ∀ r ∈ rs, r.2 = Status.Verified) : lastFailAux fl rs = fl := by
  induction rs with
  | nil => rfl
  | cons r t ih =>
      have hr : r.2 = Status.Verified := h r (by simp)
      simp only [lastFailAux, if_pos hr]
      exact ih (fun x hx => h x (by simp [hx]))

theorem lastFailAux_mem (rs : List (String × Status)) (fl : Option Status)
    (h : ∃ r ∈ rs, r.2 ≠ Status.Verified) :
    ∃ r ∈ rs, r.2 ≠ Status.Verified ∧ lastFailAux fl rs = some r.2 := by
  induction rs generalizing fl with
  | nil => simp at h
  | cons r t ih =>
      by_cases hv : r.2 = Status.Verified
      · obtain ⟨x, hx, hxv⟩ := h
        rcases List.mem_cons.mp hx with hxr | hxt
        · exact absurd (hxr ▸ hv) hxv
        · obtain ⟨y, hy, hyv, hval⟩ := ih fl ⟨x, hxt, hxv⟩
          exact ⟨y, by simp [hy], hyv, by simpa [lastFailAux, hv] using hval⟩
      · by_cases ht : ∃ x ∈ t, x.2 ≠ Status.Verified
        · obtain ⟨y, hy, hyv, hval⟩ := ih (some r.2) ht
          exact ⟨y, by simp [hy], hyv, by simpa [lastFailAux, hv] using hval⟩
        · push_neg at ht
          refine ⟨r, by simp, hv, ?_⟩
          simp only [lastFailAux, if_neg hv]
          exact lastFailAux_all_verified t (some r.2) ht

theorem filter_length_partition (rs : List (String × Status)) :
    (rs.filter (fun r => decide (r.2 = Status.Verified))).length +
    (rs.filter (fun r => decide (r.2 ≠ Status.Verified))).length = rs.length := by
  induction rs with
  | nil => rfl
  | cons r t ih =>
      by_cases hv : r.2 = Status.Verified
      · have e1 : (r :: t).filter (fun r => decide (r.2 = Status.Verified)) =
            r :: t.filter (fun r => decide (r.2 = Status.Verified)) := by
          simp [List.filter_cons, hv]
        have e2 : (r :: t).filter (fun r => decide (r.2 ≠ Status.Verified)) =
            t.filter (fun r => decide (r.2 ≠ Status.Verified)) := by
          simp [List.filter_cons, hv]
        rw [e1, e2]
        simp only [List.length_cons]
        omega
      · have e1 : (r :: t).filter (fun r => decide (r.2 = Status.Verified)) =
            t.filter (fun r => decide (r.2 = Status.Verified)) := by
          simp [List.filter_cons, hv]
        have e2 : (r :: t).filter (fun r => decide (r.2 ≠ Status.Verified)) =
            r :: t.filter (fun r => decide (r.2 ≠ Status.Verified)) := by
          simp [List.filter_cons, hv]
        rw [e1, e2]
        simp only [List.length_cons]
        omega

/-! Claim C5: run scheduler aggregation. -/

/-- C5: over N entries of which exactly K end non-Verified, the aggregate
reports passes = N - K and fails = K; the overall status is Verified when
K = 0 and is one of the non-Verified statuses that occurred when K > 0. -/
theorem c5_aggregate (results : List (String × Status)) :
    (verifyLoop results).1 =
        results.length -
          (results.filter (fun r => decide (r.2 ≠ Status.Verified))).length ∧
    (verifyLoop results).2.1 =
        (results.filter (fun r => decide (r.2 ≠ Status.Verified))).length ∧
    ((results.filter (fun r => decide (r.2 ≠ Status.Verified))).length = 0 →
        verifyOverall results = Status.Verified) ∧
    (0 < (results.filter (fun r => decide (r.2 ≠ Status.Verified))).length →
        verifyOverall results ≠ Status.Verified ∧
        ∃ r ∈ results, r.2 = verifyOverall results ∧ r.2 ≠ Status.Verified) := by
  have hfold := foldl_verifyStep_closed results 0 0 none
  have hpart := filter_length_partition results
  refine ⟨?_, ?_, ?_, ?_⟩
  · unfold verifyLoop
    rw [hfold]
    simp only [Nat.zero_add]
    omega
  · unfold verifyLoop
    rw [hfold]
    simp only [Nat.zero_add]
  · intro hK
    have hall : ∀ r ∈ results, r.2 = Status.Verified := by
      intro r hr
      have hnil := List.filter_eq_nil_iff.mp (List.length_eq_zero.mp hK) r hr
      simpa using hnil
    unfold verifyOverall verifyLoop
    rw [hfold]
    simp [lastFailAux_all_verified results none hall]
  · intro hK
    have hne : ∃ r ∈ results, r.2 ≠ Status.Verified := by
      have hnil : results.filter (fun r => decide (r.2 ≠ Status.Verified)) ≠ [] := by
        intro hc
        rw [hc] at hK
        simp at hK
      obtain ⟨x, hx⟩ := List.exists_mem_of_ne_nil _ hnil
      have := List.mem_filter.mp hx
      exact ⟨x, this.1, by simpa using this.2⟩
    obtain ⟨r, hr, hrv, hval⟩ := lastFailAux_mem results none hne
    have hov : verifyOverall results = r.2 := by
      unfold verifyOverall verifyLoop
      rw [hfold]
      simp [hval]
    exact ⟨by rw [hov]; exact hrv, r, hr, by rw [hov], hrv⟩

/-- C5 witness: of three entries one is Verified and two are not; passes is
1, fails is 2, and the overall status is not Verified. -/
theorem c5_aggregate_witness :
    (verifyLoop [("a", Status.Verified), ("b", Status.Timeout), ("c", Status.Error)]).2.1 = 2 ∧
    verifyOverall [("a", Status.Verified), ("b", Status.Timeout), ("c", Status.Error)] ≠
      Status.Verified := by
  refine ⟨?_, ?_⟩
  · have h := (c5_aggregate [("a", Status.Verified), ("b", Status.Timeout),
      ("c", Status.Error)]).2.1
    rw [h]
    decide
  · exact ((c5_aggregate [("a", Status.Verified), ("b", Status.Timeout),
      ("c", Status.Error)]).2.2.2 (by decide)).1

/-! Claim C6: bitcode candidate disambiguation. -/

/-- C6: exactly one candidate bitcode file with a main symbol is selected;
zero or more than one candidate makes the pipeline fail with a reported
error (the function returns Status::Unknown) and never picks one
arbitrarily, and the zero-candidate error differs depending on whether
tests were requested. -/
theorem c6_bitcode_disambiguation (files : List (String × List String))
    (pkg : String) (tr : Bool) :
    (∀ bc, mainCandidates files = [bc] → selectBc files tr pkg = BcOutcome.picked bc) ∧
    (∀ bc, selectBc files tr pkg = BcOutcome.picked bc → mainCandidates files = [bc]) ∧
    (mainCandidates files = [] →
       (∃ m, selectBc files tr pkg = BcOutcome.failed m) ∧
       selectBc files true pkg ≠ selectBc files false pkg) ∧
    (2 ≤ (mainCandidates files).length →
       ∃ m, selectBc files tr pkg = BcOutcome.failed m) := by
  have hmsg : "  FAILED: Use --tests with library crates" ≠
      ("  FAILED: Test " ++ pkg ++ " compilation error") := by
    intro h
    have hdata := congrArg String.data h
    rw [String.data_append, String.data_append] at hdata
    have h10 := congrArg (fun l => l[10]?) hdata
    have h15 : ("  FAILED: Test ").data.length = 15 := by decide
    have hlen : (10 : Nat) < ("  FAILED: Test ").data.length := by decide
    have hL : (10 : Nat) < (("  FAILED: Test ").data ++ pkg.data).length := by
      rw [List.length_append]
      omega
    simp only at h10
    rw [List.getElem?_append_left hL, List.getElem?_append_left hlen] at h10
    revert h10
    decide
  refine ⟨?_, ?_, ?_, ?_⟩
  · intro bc h
    unfold selectBc
    rw [h]
  · intro bc h
    unfold selectBc at h
    match hc : mainCandidates files with
    | [b] => rw [hc] at h; cases h; rfl
    | [] => rw [hc] at h; by_cases htr : tr = true <;> simp [htr] at h
    | a :: b :: t => rw [hc] at h; cases h
  · intro h
    unfold selectBc
    rw [h]
    constructor
    · cases tr <;> exact ⟨_, rfl⟩
    · simp only [ite_true, ite_false, Bool.false_eq_true, if_true, if_false]
      intro hc
      injection hc with hmv
      exact hmsg hmv
  · intro h
    unfold selectBc
    match hc : mainCandidates files with
    | [] => rw [hc] at h; simp at h
    | [b] => rw [hc] at h; simp at h
    | a :: b :: t => cases tr <;> exact ⟨_, rfl⟩

/-- C6 witness: two candidate files both containing main give a failure, a
single candidate is picked, and the two zero-candidate error messages
differ. -/
theorem c6_bitcode_disambiguation_witness :
    selectBc [("x.bc", ["0000 T main"])] false "pkg" = BcOutcome.picked "x.bc" ∧
    (∃ m, selectBc [("x.bc", ["0000 T main"]), ("y.bc", ["0000 T _main"])] false "pkg" =
      BcOutcome.failed m) ∧
    selectBc [] true "pkg" ≠ selectBc [] false "pkg" := by
  refine ⟨?_, ?_, ?_⟩
  · exact (c6_bitcode_disambiguation [("x.bc", ["0000 T main"])] "pkg" false).1
      "x.bc" (by decide)
  · exact (c6_bitcode_disambiguation [("x.bc", ["0000 T main"]),
      ("y.bc", ["0000 T _main"])] "pkg" false).2.2.2 (by decide)
  · exact ((c6_bitcode_disambiguation ([] : List (String × List String)) "pkg" true).2.2.1
      (by decide)).2

theorem kleeLine_of_neg (e : Option String) (l : String)
    (h1 : strStarts l "KLEE: HaltTimer invoked" = false)
    (h2 : strStarts l "KLEE: halting execution, dumping remaining states" = false)
    (h3 : strStarts l "KLEE: ERROR:" = false)
    (h4 : is_expected_panic l e = false)
    (h5 : strContains l "assertion failed" = false)
    (h6 : strContains l "verification failed" = false)
    (h7 : strContains l "with overflow" = false)
    (h8 : strContains l "note: run with `RUST_BACKTRACE=1`" = false) :
    kleeLine e l =
      if strStarts l "VERIFIER_EXPECT:" then none
      else if strContains l "KLEE: done:" then
        (if e = none then some Status.Verified else some Status.Error)
      else none := by
  have h3a : strStarts l "KLEE: ERROR: Could not link" = false :=
    strStarts_mono l "KLEE: ERROR:" "KLEE: ERROR: Could not link" (by decide) h3
  have h3b : strStarts l "KLEE: ERROR: Unable to load symbol" = false :=
    strStarts_mono l "KLEE: ERROR:" "KLEE: ERROR: Unable to load symbol" (by decide) h3
  simp [kleeLine, h1, h2, h3, h3a, h3b, h4, h5, h6, h7, h8]

theorem klee_done_findSome (e : Option String) (lines : List String)
    (hall : ∀ l ∈ lines,
      strStarts l "KLEE: HaltTimer invoked" = false ∧
      strStarts l "KLEE: halting execution, dumping remaining states" = false ∧
      strStarts l "KLEE: ERROR:" = false ∧
      is_expected_panic l e = false ∧
      strContains l "assertion failed" = false ∧
      strContains l "verification failed" = false ∧
      strContains l "with overflow" = false ∧
      strContains l "note: run with `RUST_BACKTRACE=1`" = false)
    (hex : ∃ l ∈ lines, strContains l "KLEE: done:" = true ∧
      strStarts l "VERIFIER_EXPECT:" = false) :
    lines.findSome? (kleeLine e) =
      some (if e = none then Status.Verified else Status.Error) := by
  induction lines with
  | nil => simp at hex
  | cons a t ih =>
      obtain ⟨ha1, ha2, ha3, ha4, ha5, ha6, ha7, ha8⟩ := hall a (by simp)
      rw [List.findSome?_cons, kleeLine_of_neg e a ha1 ha2 ha3 ha4 ha5 ha6 ha7 ha8]
      by_cases hv : strStarts a "VERIFIER_EXPECT:" = true
      · rw [if_pos hv]
        apply ih
        · intro l hl
          exact hall l (by simp [hl])
        · obtain ⟨x, hx, hxd, hxv⟩ := hex
          rcases List.mem_cons.mp hx with rfl | hxt
          · rw [hv] at hxv; cases hxv
          · exact ⟨x, hxt, hxd, hxv⟩
      · rw [if_neg hv]
        by_cases hd : strContains a "KLEE: done:" = true
        · rw [if_pos hd]
          cases e with
          | none => simp
          | some s => simp
        · have hd' : strContains a "KLEE: done:" = false := by
            cases hq : strContains a "KLEE: done:"
            · rfl
            · exact absurd hq hd
          rw [if_neg hd]
          apply ih
          · intro l hl
            exact hall l (by simp [hl])
          · obtain ⟨x, hx, hxd, hxv⟩ := hex
            rcases List.mem_cons.mp hx with rfl | hxt
            · rw [hd'] at hxd; cases hxd
            · exact ⟨x, hxt, hxd, hxv⟩

theorem seahorn_unsat_findSome (e : Option String) (lines : List String)
    (hall : ∀ l ∈ lines, is_expected_panic l e = false ∧ l ≠ "sat")
    (hex : ∃ l ∈ lines, l = "unsat") :
    lines.findSome? (seahornLine e) =
      some (if e = none then Status.Verified else Status.Error) := by
  induction lines with
  | nil => simp at hex
  | cons a t ih =>
      obtain ⟨ha1, ha2⟩ := hall a (by simp)
      rw [List.findSome?_cons]
      by_cases hu : a = "unsat"
      · subst hu
        have hl : seahornLine e "unsat" =
            if e = none then some Status.Verified else some Status.Error := by
          unfold seahornLine
          rw [if_neg (by decide), if_neg (by simp [ha1]), if_neg (by decide), if_pos rfl]
        rw [hl]
        cases e with
        | none => simp
        | some s => simp
      · have hl : seahornLine e a = none := by
          unfold seahornLine
          by_cases hsw : strStarts a "VERIFIER_EXPECT:" = true
          · rw [if_pos hsw]
          · rw [if_neg hsw, if_neg (by simp [ha1]), if_neg ha2, if_neg hu]
        rw [hl]
        apply ih
        · intro l hl
          exact hall l (by simp [hl])
        · obtain ⟨x, hx, hxu⟩ := hex
          rcases List.mem_cons.mp hx with rfl | hxt
          · exact absurd hxu hu
          · exact ⟨x, hxt, hxu⟩

/-! Claim C2: the exhaustive-exploration-done marker. -/

/-- C2: for an output whose only recognized pattern is the backend's
exhaustion marker ("KLEE: done:" for KLEE, "unsat" for Seahorn):
classification yields Verified when no expectation was registered and
Error when an expectation was registered and never matched. -/
theorem c2_exhaustion_marker :
    (∀ lines : List String,
      (∀ l ∈ lines,
        strStarts l "KLEE: HaltTimer invoked" = false ∧
        strStarts l "KLEE: halting execution, dumping remaining states" = false ∧
        strStarts l "KLEE: ERROR:" = false ∧
        is_expected_panic l (scanExpect lines) = false ∧
        strContains l "assertion failed" = false ∧
        strContains l "verification failed" = false ∧
        strContains l "with overflow" = false ∧
        strContains l "note: run with `RUST_BACKTRACE=1`" = false) →
      (∃ l ∈ lines, strContains l "KLEE: done:" = true ∧
        strStarts l "VERIFIER_EXPECT:" = false) →
      kleeStatus lines =
        (if scanExpect lines = none then Status.Verified else Status.Error)) ∧
    (∀ serr sout : List String,
      (∀ l ∈ serr ++ sout, is_expected_panic l (scanExpect serr) = false ∧ l ≠ "sat") →
      (∃ l ∈ serr ++ sout, l = "unsat") →
      seahornStatus serr sout =
        (if scanExpect serr = none then Status.Verified else Status.Error)) := by
  constructor
  · intro lines hall hex
    unfold kleeStatus
    rw [klee_done_findSome (scanExpect lines) lines hall hex]
  · intro serr sout hall hex
    unfold seahornStatus
    rw [seahorn_unsat_findSome (scanExpect serr) (serr ++ sout) hall hex]

/-- C2 witness: a KLEE log with a registered (never matched) expectation
and only the done marker classifies as Error, and a Seahorn log that is
just "unsat" with no expectation classifies as Verified. -/
theorem c2_exhaustion_marker_witness :
    kleeStatus ["VERIFIER_EXPECT: should_panic", "KLEE: done:"] = Status.Error ∧
    seahornStatus [] ["unsat"] = Status.Verified := by
  constructor
  · have h := c2_exhaustion_marker.1 ["VERIFIER_EXPECT: should_panic", "KLEE: done:"]
      (by decide) (by decide)
    rw [h]
    decide
  · have h := c2_exhaustion_marker.2 [] ["unsat"] (by decide) (by decide)
    rw [h]
    decide

/-! Claim C1: expected-panic precedence. -/

/-- C1: when an expectation was registered, a line recognized as the
expected panic makes the classifier return Verified as soon as no earlier
line produced a verdict, even though the same line or later lines match
the generic failure patterns (assertion failed, verification failed, with
overflow); the hypotheses only exclude the patterns the source checks
before the expected-panic test on the very same line. -/
theorem c1_expected_panic_precedence (pre post : List String) (l : String)
    (hpre : ∀ x ∈ pre, kleeLine (scanExpect (pre ++ l :: post)) x = none)
    (h1 : strStarts l "KLEE: HaltTimer invoked" = false)
    (h2 : strStarts l "KLEE: halting execution, dumping remaining states" = false)
    (h3 : strStarts l "KLEE: ERROR:" = false)
    (h4 : strStarts l "VERIFIER_EXPECT:" = false)
    (hep : is_expected_panic l (scanExpect (pre ++ l :: post)) = true) :
    kleeStatus (pre ++ l :: post) = Status.Verified := by
  have h3a : strStarts l "KLEE: ERROR: Could not link" = false :=
    strStarts_mono l "KLEE: ERROR:" "KLEE: ERROR: Could not link" (by decide) h3
  have h3b : strStarts l "KLEE: ERROR: Unable to load symbol" = false :=
    strStarts_mono l "KLEE: ERROR:" "KLEE: ERROR: Unable to load symbol" (by decide) h3
  have hl : kleeLine (scanExpect (pre ++ l :: post)) l = some Status.Verified := by
    simp [kleeLine, h1, h2, h3, h3a, h3b, h4, hep]
  unfold kleeStatus
  rw [findSome?_append_none _ pre _ hpre, List.findSome?_cons, hl]

/-- C1 witness: the marker registers a should_panic expectation, the panic
line itself contains the generic pattern "assertion failed", and a later
line is the generic pattern "verification failed"; the classifier still
returns Verified. -/
theorem c1_expected_panic_precedence_witness :
    kleeStatus
      ["VERIFIER_EXPECT: should_panic",
       "thread \x27main\x27 panicked at \x27assertion failed: x\x27, src/main.rs:5:5",
       "verification failed"] = Status.Verified :=
  c1_expected_panic_precedence
    ["VERIFIER_EXPECT: should_panic"] ["verification failed"]
    "thread \x27main\x27 panicked at \x27assertion failed: x\x27, src/main.rs:5:5"
    (by decide) (by decide) (by decide) (by decide) (by decide) (by decide)


theorem kleeLine_not_verified (e : Option String) (l : String)
    (hne : is_expected_panic l e = false) (hnn : e ≠ none) :
    kleeLine e l ≠ some Status.Verified := by
  unfold kleeLine
  by_cases hb1 : strStarts l "KLEE: HaltTimer invoked" = true
  · rw [if_pos hb1]; decide
  rw [if_neg hb1]
  by_cases hb2 : strStarts l "KLEE: halting execution, dumping remaining states" = true
  · rw [if_pos hb2]; decide
  rw [if_neg hb2]
  by_cases hb3 : strStarts l "KLEE: ERROR: Could not link" = true
  · rw [if_pos hb3]; decide
  rw [if_neg hb3]
  by_cases hb4 : strStarts l "KLEE: ERROR: Unable to load symbol" = true
  · rw [if_pos hb4]; decide
  rw [if_neg hb4]
  by_cases hb5 : (strStarts l "KLEE: ERROR:" && strContains l "unreachable") = true
  · rw [if_pos hb5]; decide
  rw [if_neg hb5]
  by_cases hb6 : (strStarts l "KLEE: ERROR:" && strContains l "overflow") = true
  · rw [if_pos hb6]; decide
  rw [if_neg hb6]
  by_cases hb7 : strStarts l "KLEE: ERROR:" = true
  · rw [if_pos hb7]; decide
  rw [if_neg hb7]
  by_cases hb8 : strStarts l "VERIFIER_EXPECT:" = true
  · rw [if_pos hb8]; simp
  rw [if_neg hb8]
  by_cases hb9 : is_expected_panic l e = true
  · exact absurd hb9 (by simp [hne])
  rw [if_neg hb9]
  by_cases hb10 : strContains l "assertion failed" = true
  · rw [if_pos hb10]; decide
  rw [if_neg hb10]
  by_cases hb11 : strContains l "verification failed" = true
  · rw [if_pos hb11]; decide
  rw [if_neg hb11]
  by_cases hb12 : strContains l "with overflow" = true
  · rw [if_pos hb12]; decide
  rw [if_neg hb12]
  by_cases hb13 : strContains l "note: run with `RUST_BACKTRACE=1`" = true
  · rw [if_pos hb13]; decide
  rw [if_neg hb13]
  by_cases hb14 : strContains l "KLEE: done:" = true
  · rw [if_pos hb14, if_neg hnn]; decide
  rw [if_neg hb14]
  simp

/-! Claim C3: the expectation substring gate. -/

/-- C3 counterexample to the claim as stated: an output that registers the
expectation "foo" and contains no panic line at all; every panic line
vacuously lacks the substring, yet classification yields Unknown, not the
Error the claim asserts. -/
theorem c3_substring_gate_counterexample :
    scanExpect ["VERIFIER_EXPECT: should_panic(expected = \"foo\")"] = some "foo" ∧
    findPanicked ("VERIFIER_EXPECT: should_panic(expected = \"foo\")").data = none ∧
    kleeStatus ["VERIFIER_EXPECT: should_panic(expected = \"foo\")"] = Status.Unknown := by
  refine ⟨by decide, by decide, by decide⟩

/-- C3 (amended): with an expectation substring registered, only a panic
line whose message contains that substring satisfies the expectation, and
when every panic line in the output has a message not containing the
substring, classification never yields Verified (the claim's stronger
"yields Error" fails when no other pattern concludes the scan, as the
counterexample shows). -/
theorem c3_substring_gate (lines : List String) (s : String)
    (hs : scanExpect lines = some s)
    (hmiss : ∀ l ∈ lines, ∀ msg loc, findPanicked l.data = some (msg, loc) →
      subL s.data msg = false) :
    (∀ l : String, is_expected_panic l (some s) = true →
      ∃ msg loc, findPanicked l.data = some (msg, loc) ∧ subL s.data msg = true) ∧
    kleeStatus lines ≠ Status.Verified := by
  constructor
  · intro l h
    unfold is_expected_panic at h
    cases hf : findPanicked l.data with
    | none => rw [hf] at h; cases h
    | some p =>
        obtain ⟨msg, loc⟩ := p
        rw [hf] at h
        exact ⟨msg, loc, rfl, h⟩
  · have hnv : ∀ l ∈ lines, kleeLine (scanExpect lines) l ≠ some Status.Verified := by
      intro l hl
      apply kleeLine_not_verified
      · rw [hs]
        unfold is_expected_panic
        cases hf : findPanicked l.data with
        | none => rfl
        | some p =>
            obtain ⟨msg, loc⟩ := p
            exact hmiss l hl msg loc hf
      · rw [hs]
        simp
    have hne := findSome?_ne_some (kleeLine (scanExpect lines)) lines Status.Verified hnv
    unfold kleeStatus
    cases hfs : lines.findSome? (kleeLine (scanExpect lines)) with
    | none => simp
    | some st =>
        simp only
        intro hst
        exact hne (by rw [hfs, hst])

/-- C3 witness for the amended claim: the expectation requires "overflow"
but the only panic says "assertion failed: x", so the run (which ends with
the done marker) is not Verified. -/
theorem c3_substring_gate_witness :
    kleeStatus
      ["VERIFIER_EXPECT: should_panic(expected = \"overflow\")",
       "thread \x27main\x27 panicked at \x27assertion failed: x\x27, src/main.rs:5:5",
       "KLEE: done:"] ≠ Status.Verified := by
  apply (c3_substring_gate
    ["VERIFIER_EXPECT: should_panic(expected = \"overflow\")",
     "thread \x27main\x27 panicked at \x27assertion failed: x\x27, src/main.rs:5:5",
     "KLEE: done:"] "overflow" (by decide) ?_).2
  intro l hl msg loc hf
  have hfin : l = "VERIFIER_EXPECT: should_panic(expected = \"overflow\")" ∨
      l = "thread \x27main\x27 panicked at \x27assertion failed: x\x27, src/main.rs:5:5" ∨
      l = "KLEE: done:" := by simpa using hl
  rcases hfin with rfl | rfl | rfl
  · rw [(by decide :
      findPanicked ("VERIFIER_EXPECT: should_panic(expected = \"overflow\")").data =
        none)] at hf
    cases hf
  · rw [(by decide :
      findPanicked
        ("thread \x27main\x27 panicked at \x27assertion failed: x\x27, src/main.rs:5:5").data =
        some (("assertion failed: x").data, ("src/main.rs:5:5").data))] at hf
    injection hf with hp
    have hmsg : ("assertion failed: x").data = msg := congrArg Prod.fst hp
    rw [← hmsg]
    decide
  · rw [(by decide : findPanicked ("KLEE: done:").data = none)] at hf
    cases hf

theorem tailTest_sound (r : List Char) (h : tailTest r = true) :
    ∃ b c, r = b ++ ('t' :: 'e' :: 's' :: 't' :: c) ∧ b ≠ [] ∧
      b.all isWsRe = true ∧ c.all isWsRe = true := by
  cases r with
  | nil => cases h
  | cons c0 r' =>
      unfold tailTest at h
      simp only [Bool.and_eq_true] at h
      obtain ⟨hws, hst, hall⟩ := h
      obtain ⟨t, ht⟩ := (startsL_iff ((c0 :: r').dropWhile isWsRe) ("test").data).mp hst
      have hb : (c0 :: r').takeWhile isWsRe ++ (c0 :: r').dropWhile isWsRe = c0 :: r' :=
        List.takeWhile_append_dropWhile isWsRe (c0 :: r')
      have hdrop : ((c0 :: r').dropWhile isWsRe).drop 4 = t := by
        rw [ht]
        have h4 : (("test").data).length = 4 := by decide
        rw [← h4]
        exact List.drop_left _ _
      refine ⟨(c0 :: r').takeWhile isWsRe, t, ?_, ?_, all_takeWhile isWsRe _, ?_⟩
      · calc c0 :: r'
              = (c0 :: r').takeWhile isWsRe ++ (c0 :: r').dropWhile isWsRe := hb.symm
          _ = (c0 :: r').takeWhile isWsRe ++ (("test").data ++ t) := by rw [ht]
          _ = (c0 :: r').takeWhile isWsRe ++ ('t' :: 'e' :: 's' :: 't' :: t) := rfl
      · have : (c0 :: r').takeWhile isWsRe = c0 :: r'.takeWhile isWsRe := by
          simp [List.takeWhile_cons, hws]
        rw [this]
        exact List.cons_ne_nil _ _
      · rw [hdrop] at hall
        exact hall

theorem tailTest_complete (b c : List Char) (hb : b ≠ []) (hball : b.all isWsRe = true)
    (hcall : c.all isWsRe = true) :
    tailTest (b ++ ('t' :: 'e' :: 's' :: 't' :: c)) = true := by
  cases b with
  | nil => exact absurd rfl hb
  | cons w b' =>
      have hw : isWsRe w = true := by
        simp only [List.all_cons, Bool.and_eq_true] at hball
        exact hball.1
      have hdw : ((w :: b') ++ ('t' :: 'e' :: 's' :: 't' :: c)).dropWhile isWsRe =
          't' :: 'e' :: 's' :: 't' :: c := by
        rw [dropWhile_append_all isWsRe (w :: b') _ hball]
        have : isWsRe 't' = false := by decide
        simp [List.dropWhile_cons, this]
      have hstart : startsL ('t' :: 'e' :: 's' :: 't' :: c) (("test").data) = true :=
        startsL_prepend (("test").data) c
      have hdrop : (('t' :: 'e' :: 's' :: 't' :: c).drop 4).all isWsRe = true := hcall
      simp only [List.cons_append] at hdw
      show tailTest (w :: (b' ++ ('t' :: 'e' :: 's' :: 't' :: c))) = true
      unfold tailTest
      simp [hw, hdw, hstart]
      exact List.all_eq_true.mp hcall

theorem colonSplit_sound (run rest : List Char) (g : List Char)
    (h : colonSplit run rest = some g) :
    ∃ t, run = g ++ ':' :: t ∧ tailTest (t ++ rest) = true := by
  induction run generalizing g with
  | nil => cases h
  | cons c tr ih =>
      unfold colonSplit at h
      cases hcs : colonSplit tr rest with
      | some g' =>
          rw [hcs] at h
          injection h with h'
          obtain ⟨t, ht, htt⟩ := ih g' hcs
          refine ⟨t, ?_, htt⟩
          rw [← h', ht]
          rfl
      | none =>
          rw [hcs] at h
          by_cases hcond : (c == ':' && tailTest (tr ++ rest)) = true
          · rw [if_pos hcond] at h
            injection h with h'
            simp only [Bool.and_eq_true, beq_iff_eq] at hcond
            refine ⟨tr, ?_, hcond.2⟩
            rw [← h', hcond.1]
            rfl
          · rw [if_neg hcond] at h
            cases h

theorem colonSplit_last (g rest : List Char) (h : tailTest rest = true) :
    colonSplit (g ++ [':']) rest = some g := by
  induction g with
  | nil =>
      show colonSplit [':'] rest = some []
      unfold colonSplit
      have : colonSplit [] rest = none := rfl
      rw [this]
      simp [h]
  | cons c g' ih =>
      show colonSplit (c :: (g' ++ [':'])) rest = some (c :: g')
      unfold colonSplit
      rw [ih]

theorem matchTestAt_sound (s g : List Char) (h : matchTestAt s = some g) :
    g ≠ [] ∧ g.all (fun c => !(isWsRe c)) = true ∧
      ∃ u, s = g ++ ':' :: u ∧ tailTest u = true := by
  unfold matchTestAt at h
  cases hcs : colonSplit (s.takeWhile (fun c => !(isWsRe c)))
      (s.dropWhile (fun c => !(isWsRe c))) with
  | none => rw [hcs] at h; cases h
  | some g0 =>
      rw [hcs] at h
      have h2 : (if g0.isEmpty = true then none else some g0) = some g := h
      by_cases hg : g0.isEmpty = true
      · rw [if_pos hg] at h2; cases h2
      · rw [if_neg hg] at h2
        injection h2 with h'
        subst h'
        obtain ⟨t, hrun, htt⟩ := colonSplit_sound _ _ _ hcs
        have hne : g0 ≠ [] := by
          intro hc
          rw [hc] at hg
          exact hg rfl
        have hall : g0.all (fun c => !(isWsRe c)) = true := by
          rw [List.all_eq_true]
          intro x hx
          have hxr : x ∈ s.takeWhile (fun c => !(isWsRe c)) := by
            rw [hrun]
            exact List.mem_append_left _ hx
          exact @List.mem_takeWhile_imp Char (fun c => !(isWsRe c)) s x hxr
        refine ⟨hne, hall, t ++ s.dropWhile (fun c => !(isWsRe c)), ?_, htt⟩
        calc s = s.takeWhile (fun c => !(isWsRe c)) ++ s.dropWhile (fun c => !(isWsRe c)) :=
              (List.takeWhile_append_dropWhile _ s).symm
          _ = (g0 ++ ':' :: t) ++ s.dropWhile (fun c => !(isWsRe c)) := by rw [hrun]
          _ = g0 ++ ':' :: (t ++ s.dropWhile (fun c => !(isWsRe c))) := by
              simp [List.append_assoc]

theorem matchTestAt_complete (nm : List Char) (w : Char) (u : List Char)
    (hnm : nm ≠ []) (hall : nm.all (fun c => !(isWsRe c)) = true)
    (hw : isWsRe w = true) (htt : tailTest (w :: u) = true) :
    matchTestAt (nm ++ ':' :: w :: u) = some nm := by
  have htw : (nm ++ ':' :: w :: u).takeWhile (fun c => !(isWsRe c)) = nm ++ [':'] := by
    rw [takeWhile_append_all _ nm _ hall]
    have hc : (fun c => !(isWsRe c)) ':' = true := by decide
    have hwf : (fun c => !(isWsRe c)) w = false := by simp [hw]
    simp [List.takeWhile_cons, hc, hwf]
  have hdw : (nm ++ ':' :: w :: u).dropWhile (fun c => !(isWsRe c)) = w :: u := by
    rw [dropWhile_append_all _ nm _ hall]
    have hc : (fun c => !(isWsRe c)) ':' = true := by decide
    have hwf : (fun c => !(isWsRe c)) w = false := by simp [hw]
    simp [List.dropWhile_cons, hc, hwf]
  unfold matchTestAt
  rw [htw, hdw, colonSplit_last nm (w :: u) htt]
  have : nm.isEmpty = false := by
    cases nm
    · exact absurd rfl hnm
    · rfl
  simp [this]

theorem findTestName_sound (s g : List Char) (h : findTestName s = some g) :
    ∃ a u, s = a ++ g ++ ':' :: u ∧ tailTest u = true ∧ g ≠ [] ∧
      g.all (fun c => !(isWsRe c)) = true := by
  induction s with
  | nil => cases h
  | cons c s' ih =>
      have hd : findTestName (c :: s') =
          (match matchTestAt (c :: s') with
           | some g => some g
           | none => findTestName s') := rfl
      rw [hd] at h
      cases hm : matchTestAt (c :: s') with
      | some g0 =>
          rw [hm] at h
          have h2 : some g0 = some g := h
          injection h2 with h'
          subst h'
          obtain ⟨hg, hall, u, hs, htt⟩ := matchTestAt_sound _ _ hm
          exact ⟨[], u, by simpa using hs, htt, hg, hall⟩
      | none =>
          rw [hm] at h
          have h2 : findTestName s' = some g := h
          obtain ⟨a, u, hs, htt, hg, hall⟩ := ih h2
          refine ⟨c :: a, u, ?_, htt, hg, hall⟩
          simp [hs]

theorem findTestName_complete (a s : List Char) (h : matchTestAt s ≠ none) :
    findTestName (a ++ s) ≠ none := by
  induction a with
  | nil =>
      cases s with
      | nil => exact absurd rfl h
      | cons c s' =>
          show findTestName (c :: s') ≠ none
          have hd : findTestName (c :: s') =
              (match matchTestAt (c :: s') with
               | some g => some g
               | none => findTestName s') := rfl
          rw [hd]
          cases hm : matchTestAt (c :: s') with
          | some g => intro hc; exact Option.noConfusion hc
          | none => exact absurd hm h
  | cons x a' ih =>
      show findTestName (x :: (a' ++ s)) ≠ none
      have hd : findTestName (x :: (a' ++ s)) =
          (match matchTestAt (x :: (a' ++ s)) with
           | some g => some g
           | none => findTestName (a' ++ s)) := rfl
      rw [hd]
      cases hm : matchTestAt (x :: (a' ++ s)) with
      | some g => intro hc; exact Option.noConfusion hc
      | none => exact ih

/-! Claim C8: test listing and filtering. -/

/-- C8: the candidate test identifiers are exactly the names captured by
the TEST regex from the listing output, narrowed by the --test substring
filters; zero remaining tests fail with the reported "No tests found"
error instead of silently succeeding.  The second conjunct shows every
captured name comes from a line matching "(\S+):\s+test\s*$", and the
third that every line of that shape is captured. -/
theorem c8_test_resolution :
    (∀ (lines filters : List String),
      (∀ ts, resolveTests lines filters = TestsOutcome.ok ts →
        ts = narrowTests (list_tests lines) filters ∧ ts ≠ []) ∧
      (narrowTests (list_tests lines) filters = [] →
        resolveTests lines filters = TestsOutcome.failed "No tests found")) ∧
    (∀ (l n : String), captureTest l = some n →
      ∃ a b c, l.data = a ++ n.data ++ ':' :: b ++ ('t' :: 'e' :: 's' :: 't' :: c) ∧
        n.data ≠ [] ∧ n.data.all (fun ch => !(isWsRe ch)) = true ∧
        b ≠ [] ∧ b.all isWsRe = true ∧ c.all isWsRe = true) ∧
    (∀ (l : String) (a nm b c : List Char),
      l.data = a ++ nm ++ ':' :: b ++ ('t' :: 'e' :: 's' :: 't' :: c) →
      nm ≠ [] → nm.all (fun ch => !(isWsRe ch)) = true →
      b ≠ [] → b.all isWsRe = true → c.all isWsRe = true →
      captureTest l ≠ none) := by
  refine ⟨?_, ?_, ?_⟩
  · intro lines filters
    have key : resolveTests lines filters =
        if (narrowTests (list_tests lines) filters).isEmpty
        then TestsOutcome.failed "No tests found"
        else TestsOutcome.ok (narrowTests (list_tests lines) filters) := rfl
    constructor
    · intro ts hts
      rw [key] at hts
      by_cases he : (narrowTests (list_tests lines) filters).isEmpty = true
      · rw [if_pos he] at hts; cases hts
      · rw [if_neg he] at hts
        injection hts with h'
        subst h'
        refine ⟨rfl, ?_⟩
        intro hc
        rw [hc] at he
        exact he rfl
    · intro hempty
      rw [key, hempty]
      rfl
  · intro l n h
    unfold captureTest at h
    cases hf : findTestName l.data with
    | none => rw [hf] at h; cases h
    | some g =>
        rw [hf] at h
        injection h with h'
        obtain ⟨a, u, hs, htt, hg, hall⟩ := findTestName_sound _ _ hf
        obtain ⟨b, c, hu, hb, hball, hcall⟩ := tailTest_sound u htt
        have hnd : n.data = g := by rw [← h']
        refine ⟨a, b, c, ?_, by rw [hnd]; exact hg, by rw [hnd]; exact hall,
          hb, hball, hcall⟩
        rw [hnd, hs, hu]
        simp [List.append_assoc]
  · intro l a nm b c hdecomp hnm hnall hb hball hcall
    cases b with
    | nil => exact absurd rfl hb
    | cons w b' =>
        have hw : isWsRe w = true := by
          simp only [List.all_cons, Bool.and_eq_true] at hball
          exact hball.1
        have htt : tailTest (w :: (b' ++ ('t' :: 'e' :: 's' :: 't' :: c))) = true := by
          have := tailTest_complete (w :: b') c hb hball hcall
          simpa using this
        have hm : matchTestAt (nm ++ ':' :: w :: (b' ++ ('t' :: 'e' :: 's' :: 't' :: c))) =
            some nm := matchTestAt_complete nm w _ hnm hnall hw htt
        have hfind : findTestName l.data ≠ none := by
          have hshape : l.data =
              a ++ (nm ++ ':' :: w :: (b' ++ ('t' :: 'e' :: 's' :: 't' :: c))) := by
            rw [hdecomp]
            simp [List.append_assoc]
          rw [hshape]
          exact findTestName_complete a _ (by rw [hm]; simp)
        unfold captureTest
        cases hf : findTestName l.data with
        | none => exact absurd hf hfind
        | some g => simp

/-- C8 witness: a listing with no test-shaped line fails with "No tests
found", and a line of the regex shape is captured. -/
theorem c8_test_resolution_witness :
    resolveTests ["junk"] [] = TestsOutcome.failed "No tests found" ∧
    captureTest "x: test" ≠ none := by
  constructor
  · exact (c8_test_resolution.1 ["junk"] []).2 (by decide)
  · exact c8_test_resolution.2.2 "x: test" [] ['x'] [' '] []
      (by decide) (by decide) (by decide) (by decide) (by decide) (by decide)
